import Mathlib

/-!
# Verification of the MM-GBSA trajectory viewer statistics core

Shallow embedding of the numeric pipeline of `mmgbsa_ui_v2.py`:
summary statistics (`compute_stats`), the trailing-window running mean
(`dg.rolling(window, min_periods=1).mean()`), the standard-error band,
the Student-t confidence-interval band
(`calculate_confidence_interval` and the `ci_lower`/`ci_upper` loop),
the derived time axis, and the per-file processing loop
(truncation to `max_ligands`, missing-column handling, `all_stats`).

Samples are modelled as rationals (the code works on 64-bit floats; the
claims under check are exact-arithmetic facts about the algorithms).
Square roots and the scipy Student-t quantile land in `ℝ`; the quantile
`t.ppf(0.975, df)` is kept as an explicit parameter `tcrit` since it is
a transcendental constant of the scipy library, with its positivity
recorded as a hypothesis where a claim needs it.
-/

namespace MMGBSA

/-- Arithmetic mean of a list of rationals (`np.mean` / `pd.Series.mean`):
sum divided by length (division by zero yields the junk value 0 on `[]`,
where the code would yield NaN; all claims are about non-empty data). -/
def listMean (xs : List ℚ) : ℚ := xs.sum / xs.length

/-- Sample variance with `N-1` denominator, the square of `pd.Series.std()`
(`ddof = 1`).  On a singleton the `ℚ` convention `x / 0 = 0` stands in for
the code's NaN; claims about the standard deviation assume `2 ≤ N`. -/
def sampleVar (xs : List ℚ) : ℚ :=
  (xs.map (fun x => (x - listMean xs) ^ 2)).sum / (xs.length - 1 : ℕ)

/-- Sample standard deviation `pd.Series.std()` (`ddof = 1`). -/
noncomputable def sampleStd (xs : List ℚ) : ℝ := Real.sqrt (sampleVar xs)

/-- Standard error of the mean, `scipy.stats.sem` (default `ddof = 1`):
sample standard deviation divided by the square root of the sample count. -/
noncomputable def sem (xs : List ℚ) : ℝ := sampleStd xs / Real.sqrt (xs.length : ℚ)

/-- Summary statistics record returned by `compute_stats`. -/
structure Stats where
  frames : ℕ
  mean : ℚ
  stdev : ℝ
  minimum : ℚ
  maximum : ℚ

/-- Minimum of a list (`pd.Series.min`); junk value 0 on `[]`. -/
def listMin : List ℚ → ℚ
  | [] => 0
  | x :: t => t.foldl min x

/-- Maximum of a list (`pd.Series.max`); junk value 0 on `[]`. -/
def listMax : List ℚ → ℚ
  | [] => 0
  | x :: t => t.foldl max x

/-- `compute_stats(series)` from the source: frame count, mean, sample
standard deviation, minimum and maximum of the whole series. -/
noncomputable def compute_stats (xs : List ℚ) : Stats :=
  { frames := xs.length
    mean := listMean xs
    stdev := sampleStd xs
    minimum := listMin xs
    maximum := listMax xs }

/-- The trailing window `dg.iloc[max(0, i-w+1) : i+1]` used both by
`pandas.rolling(window=w, ...)` at position `i` and by the
confidence-interval loop (`window_data`).  Natural subtraction `i+1-w`
realises `max(0, i-w+1)`. -/
def window (w : ℕ) (xs : List ℚ) (i : ℕ) : List ℚ :=
  (xs.take (i + 1)).drop (i + 1 - w)

/-- `running = dg.rolling(window=w, min_periods=1).mean()`: at each index
the mean of the trailing window of up to `w` samples ending there (with
`min_periods=1` every in-range window is non-empty, so no NaN arises). -/
def rollingMean (w : ℕ) (xs : List ℚ) : List ℚ :=
  (List.range xs.length).map (fun i => listMean (window w xs i))

/-- Time axis: `dt = md_length_ns / max(len(dg)-1, 1)`;
`time_ns = [i * dt for i in range(len(dg))]`. -/
def timeAxis (D : ℚ) (xs : List ℚ) : List ℚ :=
  (List.range xs.length).map (fun i : ℕ => (i : ℚ) * (D / (max (xs.length - 1) 1 : ℕ)))

/-- The "Standard Error" branch:
`running_std = dg.rolling(w, min_periods=2).std()` (NaN where the window
holds fewer than 2 samples), divided by
`sqrt(dg.rolling(w, min_periods=2).count())`, then `fillna(0)`. -/
noncomputable def stdErrBand (w : ℕ) (xs : List ℚ) : List ℝ :=
  (List.range xs.length).map (fun i =>
    if 2 ≤ (window w xs i).length then
      sampleStd (window w xs i) / Real.sqrt ((window w xs i).length : ℚ)
    else 0)

/-- `calculate_confidence_interval(data, confidence=0.95)`:
`stats.t.interval(0.95, len(data)-1, loc=mean, scale=sem)` returns
`(mean - t * sem, mean + t * sem)` where `t = t.ppf(0.975, len(data)-1)`
is the scipy Student-t quantile, abstracted as the parameter `tcrit`.
Returns `(mean, lower, upper)` as the source does. -/
noncomputable def calculate_confidence_interval (tcrit : ℕ → ℝ) (xs : List ℚ) :
    ℝ × ℝ × ℝ :=
  ((listMean xs : ℝ),
   (listMean xs : ℝ) - tcrit (xs.length - 1) * sem xs,
   (listMean xs : ℝ) + tcrit (xs.length - 1) * sem xs)

/-- The 95% confidence-interval loop (`ci_lower` / `ci_upper`): for
`i < 2` the pair `(dg.iloc[i], dg.iloc[i])`; otherwise, if the trailing
window `dg.iloc[max(0, i-w+1) : i+1]` holds at least 2 samples, the
Student-t interval over it; otherwise again `(dg.iloc[i], dg.iloc[i])`. -/
noncomputable def ciPair (tcrit : ℕ → ℝ) (w : ℕ) (xs : List ℚ) (i : ℕ) : ℝ × ℝ :=
  if i < 2 then ((xs.getD i 0 : ℝ), (xs.getD i 0 : ℝ))
  else if 2 ≤ (window w xs i).length then
    ((calculate_confidence_interval tcrit (window w xs i)).2.1,
     (calculate_confidence_interval tcrit (window w xs i)).2.2)
  else ((xs.getD i 0 : ℝ), (xs.getD i 0 : ℝ))

/-- The `(ci_lower[i], ci_upper[i])` lists assembled over all indices. -/
noncomputable def ciBands (tcrit : ℕ → ℝ) (w : ℕ) (xs : List ℚ) : List (ℝ × ℝ) :=
  (List.range xs.length).map (ciPair tcrit w xs)

/-- The required energy column name. -/
def reqCol : String := "r_psp_MMGBSA_dG_Bind"

/-- A parsed CSV table as the processing loop sees it: its column names
and the values of the energy column (meaningful when the column exists).
`rows` is the row count (`df.empty` iff `rows = 0`). -/
structure Table where
  columns : List String
  dg : List ℚ
  rows : ℕ

/-- Outcome of one iteration of the per-file loop (lines 450-519):
an empty/unreadable file or a missing required column is reported with
`st.error` and skipped (`continue`); otherwise the series is plotted and
its statistics appended to `all_stats`. -/
inductive ProcessOutcome where
  | errEmptyOrUnreadable
  | errMissingColumn
  | plotted (stats : Stats)

/-- One iteration of the loop body: `df is None or df.empty` → error,
`reqCol not in df.columns` → error, else compute and keep statistics. -/
noncomputable def processEntry (df : Option Table) : ProcessOutcome :=
  match df with
  | none => .errEmptyOrUnreadable
  | some t =>
    if t.rows = 0 then .errEmptyOrUnreadable
    else if t.columns.contains reqCol then .plotted (compute_stats t.dg)
    else .errMissingColumn

/-- `all_stats` after the loop: the statistics of exactly the entries
that were neither empty nor missing the required column. -/
noncomputable def allStats (entries : List (Option Table)) : List Stats :=
  entries.filterMap (fun e =>
    match processEntry e with
    | .plotted s => some s
    | _ => none)

/-- Comparison-mode truncation (lines 223-226): when more files than
`max_ligands` are uploaded, keep the first `max_ligands` and emit one
warning; the boolean records whether the warning fired. -/
def truncateUploads (maxLigands : ℕ) (files : List (Option Table)) :
    List (Option Table) × Bool :=
  if files.length > maxLigands then (files.take maxLigands, true)
  else (files, false)

/-! ## Helper lemmas on the trailing window and rolling mean -/

theorem window_length (w : ℕ) (xs : List ℚ) (i : ℕ) (hi : i < xs.length) :
    (window w xs i).length = min (i + 1) w := by
  simp [window, List.length_drop, List.length_take]
  omega

theorem window_getElem (w : ℕ) (xs : List ℚ) (i j : ℕ) (hj : j < min (i + 1) w) :
    (window w xs i)[j]? = xs[(i + 1 - w) + j]? := by
  rw [window, List.getElem?_drop, List.getElem?_take, if_pos (by omega)]

theorem rollingMean_getElem (w : ℕ) (xs : List ℚ) (i : ℕ) (hi : i < xs.length) :
    (rollingMean w xs)[i]? = some (listMean (window w xs i)) := by
  simp [rollingMean, List.getElem?_map, List.getElem?_range hi]

theorem listMean_singleton (x : ℚ) : listMean [x] = x := by
  simp [listMean]

theorem eq_singleton_of_length_one {l : List ℚ} {a : ℚ}
    (h1 : l.length = 1) (h2 : l[0]? = some a) : l = [a] := by
  match l, h1 with
  | [x], _ => simpa using h2

theorem window_zero (w : ℕ) (xs : List ℚ) (hw : 1 ≤ w) (hxs : xs ≠ []) :
    window w xs 0 = [xs.headI] := by
  have hlen : (window w xs 0).length = 1 := by
    rw [window_length w xs 0 (List.length_pos.mpr hxs)]; omega
  have hget : (window w xs 0)[0]? = xs[0]? := by
    have := window_getElem w xs 0 0 (by omega)
    simpa [Nat.sub_eq_zero_of_le hw] using this
  apply eq_singleton_of_length_one hlen
  rw [hget]
  cases xs with
  | nil => exact absurd rfl hxs
  | cons x t => simp [List.headI]

theorem window_one (xs : List ℚ) (i : ℕ) (hi : i < xs.length) :
    window 1 xs i = [xs.getD i 0] := by
  have hlen : (window 1 xs i).length = 1 := by
    rw [window_length 1 xs i hi]; omega
  apply eq_singleton_of_length_one hlen
  have := window_getElem 1 xs i 0 (by omega)
  simp only [Nat.add_sub_cancel, Nat.add_zero] at this
  rw [this, List.getD_eq_getElem?_getD, List.getElem?_eq_getElem hi]
  rfl

theorem rollingMean_one (xs : List ℚ) : rollingMean 1 xs = xs := by
  apply List.ext_getElem?
  intro n
  by_cases hn : n < xs.length
  · rw [rollingMean_getElem 1 xs n hn, window_one xs n hn, listMean_singleton,
      List.getD_eq_getElem?_getD, List.getElem?_eq_getElem hn]
    rfl
  · have h1 : (rollingMean 1 xs)[n]? = none := by
      apply List.getElem?_eq_none
      simp [rollingMean]
      omega
    have h2 : xs[n]? = none := List.getElem?_eq_none (by omega)
    rw [h1, h2]

/-! ## C1: the running mean -/

/-- **C1.** For every non-empty series and window size `1 ≤ w ≤ 50`, the
running-mean value at index `i` is the arithmetic mean of the trailing
window, whose entries are exactly the samples at indices
`[max(0, i-w+1), i]` (length `min (i+1) w`, `j`-th entry the sample at
`(i+1-w)+j`, natural subtraction); at `i = 0` it equals the sample at 0;
with `w = 1` the running-mean sequence equals the input series; and on
`[1.0, 2.0, 3.0]` with `w = 10` the value at index 2 is 2.0. -/
theorem c1_running_mean (xs : List ℚ) (w : ℕ) (hxs : xs ≠ [])
    (hw1 : 1 ≤ w) (hw50 : w ≤ 50) :
    (∀ i, i < xs.length →
      (rollingMean w xs)[i]? = some (listMean (window w xs i)) ∧
      (window w xs i).length = min (i + 1) w ∧
      (∀ j, j < (window w xs i).length →
        (window w xs i)[j]? = xs[(i + 1 - w) + j]?)) ∧
    (rollingMean w xs)[0]? = xs[0]? ∧
    (w = 1 → rollingMean w xs = xs) ∧
    (rollingMean 10 [1, 2, 3])[2]? = some 2 := by
  refine ⟨fun i hi => ⟨rollingMean_getElem w xs i hi, window_length w xs i hi,
    fun j hj => window_getElem w xs i j (by rwa [window_length w xs i hi] at hj)⟩,
    ?_, ?_, ?_⟩
  · have h0 : 0 < xs.length := List.length_pos.mpr hxs
    rw [rollingMean_getElem w xs 0 h0, window_zero w xs hw1 hxs, listMean_singleton]
    cases xs with
    | nil => exact absurd rfl hxs
    | cons x t => simp [List.headI]
  · intro h1; subst h1; exact rollingMean_one xs
  · norm_num [rollingMean, window, listMean, List.range_succ]

/-- Witness for C1 at the series `[1, 2, 3]` with window size 10. -/
theorem c1_running_mean_witness :
    ([1, 2, 3] : List ℚ) ≠ [] ∧ 1 ≤ 10 ∧ 10 ≤ 50 ∧
    (rollingMean 10 [1, 2, 3])[0]? = ([1, 2, 3] : List ℚ)[0]? ∧
    (rollingMean 10 [1, 2, 3])[2]? = some 2 :=
  ⟨by decide, by decide, by decide,
   (c1_running_mean [1, 2, 3] 10 (by decide) (by decide) (by decide)).2.1,
   (c1_running_mean [1, 2, 3] 10 (by decide) (by decide) (by decide)).2.2.2⟩

/-! ## Helper lemmas on list minimum, maximum and mean -/

theorem foldl_min_le_init (l : List ℚ) (a : ℚ) : l.foldl min a ≤ a := by
  induction l generalizing a with
  | nil => exact le_refl a
  | cons x t ih => exact le_trans (ih (min a x)) (min_le_left a x)

theorem foldl_min_le_mem (l : List ℚ) (a y : ℚ) (hy : y ∈ l) : l.foldl min a ≤ y := by
  induction l generalizing a with
  | nil => cases hy
  | cons x t ih =>
    rcases List.mem_cons.mp hy with h | h
    · subst h
      exact le_trans (foldl_min_le_init t (min a y)) (min_le_right a y)
    · exact ih (min a x) h

theorem foldl_min_mem (l : List ℚ) (a : ℚ) : l.foldl min a = a ∨ l.foldl min a ∈ l := by
  induction l generalizing a with
  | nil => exact Or.inl rfl
  | cons x t ih =>
    rcases ih (min a x) with h | h
    · rcases min_cases a x with ⟨hm, _⟩ | ⟨hm, _⟩
      · exact Or.inl (by rw [List.foldl_cons, h, hm])
      · exact Or.inr (by rw [List.foldl_cons, h, hm]; exact List.mem_cons_self x t)
    · exact Or.inr (List.mem_cons_of_mem x h)

theorem foldl_max_init_le (l : List ℚ) (a : ℚ) : a ≤ l.foldl max a := by
  induction l generalizing a with
  | nil => exact le_refl a
  | cons x t ih => exact le_trans (le_max_left a x) (ih (max a x))

theorem foldl_max_mem_le (l : List ℚ) (a y : ℚ) (hy : y ∈ l) : y ≤ l.foldl max a := by
  induction l generalizing a with
  | nil => cases hy
  | cons x t ih =>
    rcases List.mem_cons.mp hy with h | h
    · subst h
      exact le_trans (le_max_right a y) (foldl_max_init_le t (max a y))
    · exact ih (max a x) h

theorem foldl_max_mem (l : List ℚ) (a : ℚ) : l.foldl max a = a ∨ l.foldl max a ∈ l := by
  induction l generalizing a with
  | nil => exact Or.inl rfl
  | cons x t ih =>
    rcases ih (max a x) with h | h
    · rcases max_cases a x with ⟨hm, _⟩ | ⟨hm, _⟩
      · exact Or.inl (by rw [List.foldl_cons, h, hm])
      · exact Or.inr (by rw [List.foldl_cons, h, hm]; exact List.mem_cons_self x t)
    · exact Or.inr (List.mem_cons_of_mem x h)

theorem listMin_mem (xs : List ℚ) (h : xs ≠ []) : listMin xs ∈ xs := by
  cases xs with
  | nil => exact absurd rfl h
  | cons x t =>
    rcases foldl_min_mem t x with h' | h'
    · rw [listMin, h']; exact List.mem_cons_self x t
    · exact List.mem_cons_of_mem x (by rw [listMin]; exact h')

theorem listMin_le (xs : List ℚ) (y : ℚ) (hy : y ∈ xs) : listMin xs ≤ y := by
  cases xs with
  | nil => cases hy
  | cons x t =>
    rcases List.mem_cons.mp hy with h | h
    · subst h; exact foldl_min_le_init t y
    · exact foldl_min_le_mem t x y h

theorem listMax_mem (xs : List ℚ) (h : xs ≠ []) : listMax xs ∈ xs := by
  cases xs with
  | nil => exact absurd rfl h
  | cons x t =>
    rcases foldl_max_mem t x with h' | h'
    · rw [listMax, h']; exact List.mem_cons_self x t
    · exact List.mem_cons_of_mem x (by rw [listMax]; exact h')

theorem le_listMax (xs : List ℚ) (y : ℚ) (hy : y ∈ xs) : y ≤ listMax xs := by
  cases xs with
  | nil => cases hy
  | cons x t =>
    rcases List.mem_cons.mp hy with h | h
    · subst h; exact foldl_max_init_le t y
    · exact foldl_max_mem_le t x y h

theorem length_pos_rat (xs : List ℚ) (h : xs ≠ []) : (0 : ℚ) < xs.length := by
  exact_mod_cast List.length_pos.mpr h

theorem listMean_le_listMax (xs : List ℚ) (h : xs ≠ []) : listMean xs ≤ listMax xs := by
  have hlen := length_pos_rat xs h
  rw [listMean, div_le_iff₀ hlen]
  calc xs.sum ≤ xs.length • listMax xs :=
        List.sum_le_card_nsmul xs (listMax xs) (fun x hx => le_listMax xs x hx)
    _ = listMax xs * xs.length := by rw [nsmul_eq_mul]; ring

theorem listMin_le_listMean (xs : List ℚ) (h : xs ≠ []) : listMin xs ≤ listMean xs := by
  have hlen := length_pos_rat xs h
  rw [listMean, le_div_iff₀ hlen]
  calc listMin xs * xs.length = xs.length • listMin xs := by rw [nsmul_eq_mul]; ring
    _ ≤ xs.sum := List.card_nsmul_le_sum xs (listMin xs) (fun x hx => listMin_le xs x hx)

/-! ## C3: summary statistics -/

/-- **C3.** For every non-empty series, `compute_stats` reports: frame
count equal to the series length; minimum and maximum that are exact
series extrema (members of the series bounding every sample); a mean
between them; and a standard deviation equal to the square root of the
squared deviations from the mean summed and divided by `N - 1`
(the sample formula). -/
theorem c3_compute_stats (xs : List ℚ) (h : xs ≠ []) :
    (compute_stats xs).frames = xs.length ∧
    (compute_stats xs).minimum ≤ (compute_stats xs).mean ∧
    (compute_stats xs).mean ≤ (compute_stats xs).maximum ∧
    (compute_stats xs).minimum ∈ xs ∧
    (∀ y ∈ xs, (compute_stats xs).minimum ≤ y) ∧
    (compute_stats xs).maximum ∈ xs ∧
    (∀ y ∈ xs, y ≤ (compute_stats xs).maximum) ∧
    (compute_stats xs).stdev =
      Real.sqrt (((xs.map (fun x => (x - xs.sum / xs.length) ^ 2)).sum
        / (xs.length - 1 : ℕ) : ℚ)) :=
  ⟨rfl, listMin_le_listMean xs h, listMean_le_listMax xs h, listMin_mem xs h,
   fun y hy => listMin_le xs y hy, listMax_mem xs h,
   fun y hy => le_listMax xs y hy, rfl⟩

/-- Witness for C3 at the series `[3, 1, 2]`. -/
theorem c3_compute_stats_witness :
    ([3, 1, 2] : List ℚ) ≠ [] ∧
    (compute_stats [3, 1, 2]).frames = ([3, 1, 2] : List ℚ).length ∧
    (compute_stats [3, 1, 2]).minimum ∈ ([3, 1, 2] : List ℚ) :=
  ⟨by decide, (c3_compute_stats [3, 1, 2] (by decide)).1,
   (c3_compute_stats [3, 1, 2] (by decide)).2.2.2.1⟩

/-! ## C9: constant series has zero standard deviation -/

theorem listMean_const (xs : List ℚ) (c : ℚ) (h : xs ≠ [])
    (hc : ∀ x ∈ xs, x = c) : listMean xs = c := by
  have hlen := length_pos_rat xs h
  rw [listMean, List.sum_eq_card_nsmul xs c hc, nsmul_eq_mul]
  field_simp

/-- **C9.** For every series of length at least 2 in which all samples
are the same value, the sample standard deviation computed by
`compute_stats` is exactly 0. -/
theorem c9_const_series_stdev_zero (xs : List ℚ) (c : ℚ)
    (hlen : 2 ≤ xs.length) (hc : ∀ x ∈ xs, x = c) :
    (compute_stats xs).stdev = 0 := by
  have hne : xs ≠ [] := by
    cases xs with
    | nil => simp at hlen
    | cons x t => exact List.cons_ne_nil x t
  have hmean : listMean xs = c := listMean_const xs c hne hc
  have hvar : sampleVar xs = 0 := by
    rw [sampleVar]
    have hsum : (xs.map (fun x => (x - listMean xs) ^ 2)).sum = 0 := by
      apply List.sum_eq_zero
      intro y hy
      rcases List.mem_map.mp hy with ⟨x, hx, hxy⟩
      rw [← hxy, hmean, hc x hx]
      ring
    rw [hsum, zero_div]
  show Real.sqrt (sampleVar xs) = 0
  rw [hvar]
  simp

/-- Witness for C9 at the constant series `[5, 5, 5]`. -/
theorem c9_const_series_stdev_zero_witness :
    2 ≤ ([5, 5, 5] : List ℚ).length ∧ (∀ x ∈ ([5, 5, 5] : List ℚ), x = 5) ∧
    (compute_stats [5, 5, 5]).stdev = 0 :=
  ⟨by decide, by decide, c9_const_series_stdev_zero [5, 5, 5] 5 (by decide) (by decide)⟩

/-! ## C4: the derived time axis -/

theorem timeAxis_getElem (D : ℚ) (xs : List ℚ) (i : ℕ) (hi : i < xs.length) :
    (timeAxis D xs)[i]? = some ((i : ℚ) * (D / (max (xs.length - 1) 1 : ℕ))) := by
  rw [timeAxis, List.getElem?_map, List.getElem?_range hi, Option.map_some']

/-- **C4.** For a series of `N` samples and total duration `D > 0`, the
derived time coordinate of sample `i` is `i * (D / (N - 1))` when
`N > 1` and `0` when `N = 1`; and `[1, 2, 3]` with `D = 2` ns yields the
axis `[0, 1, 2]`. -/
theorem c4_time_axis (D : ℚ) (xs : List ℚ) (hD : 0 < D) :
    (∀ i, i < xs.length → 1 < xs.length →
      (timeAxis D xs)[i]? = some ((i : ℚ) * (D / ((xs.length : ℚ) - 1)))) ∧
    (xs.length = 1 → timeAxis D xs = [0]) ∧
    timeAxis 2 [1, 2, 3] = [0, 1, 2] := by
  refine ⟨?_, ?_, ?_⟩
  · intro i hi hlen
    have hmax : max (xs.length - 1) 1 = xs.length - 1 := by omega
    have hcast : ((max (xs.length - 1) 1 : ℕ) : ℚ) = (xs.length : ℚ) - 1 := by
      rw [hmax, Nat.cast_sub (by omega)]
      norm_num
    rw [timeAxis_getElem D xs i hi, hcast]
  · intro h
    simp [timeAxis, h, List.range_succ]
  · norm_num [timeAxis, List.range_succ]

/-- Witness for C4 at the series `[1, 2, 3]` with duration 2 ns. -/
theorem c4_time_axis_witness :
    (0 : ℚ) < 2 ∧ timeAxis 2 [1, 2, 3] = [0, 1, 2] :=
  ⟨by norm_num, (c4_time_axis 2 [1, 2, 3] (by norm_num)).2.2⟩

/-! ## C5: the standard-error band -/

/-- **C5.** For every non-empty series and window size `w ≥ 1`, the
standard-error band value at index `i` equals the sample standard
deviation of the trailing window ending at `i` divided by the square
root of the window's valid-sample count `min (i+1) w`, and equals 0 at
every index whose trailing window holds fewer than 2 samples. -/
theorem c5_std_err_band (xs : List ℚ) (w : ℕ) (hxs : xs ≠ []) (hw : 1 ≤ w) :
    ∀ i, i < xs.length →
      (2 ≤ min (i + 1) w →
        (stdErrBand w xs)[i]? =
          some (Real.sqrt (sampleVar (window w xs i)) /
            Real.sqrt ((min (i + 1) w : ℕ) : ℚ))) ∧
      (min (i + 1) w < 2 → (stdErrBand w xs)[i]? = some 0) := by
  intro i hi
  have hlen := window_length w xs i hi
  constructor
  · intro h2
    simp only [stdErrBand, List.getElem?_map, List.getElem?_range hi, Option.map_some']
    rw [hlen, if_pos h2]
    rfl
  · intro h2
    simp only [stdErrBand, List.getElem?_map, List.getElem?_range hi, Option.map_some']
    rw [hlen, if_neg (by omega)]

/-- Witness for C5 at the series `[1, 2, 3]` with window size 2:
at index 0 the window holds one sample, so the band value is 0. -/
theorem c5_std_err_band_witness :
    ([1, 2, 3] : List ℚ) ≠ [] ∧ 1 ≤ 2 ∧ min (0 + 1) 2 < 2 ∧
    (stdErrBand 2 [1, 2, 3])[0]? = some 0 :=
  ⟨by decide, by decide, by decide,
   (c5_std_err_band [1, 2, 3] 2 (by decide) (by decide) 0 (by decide)).2 (by decide)⟩

/-! ## Helper lemmas on the confidence-interval band -/

theorem ciBands_getElem (tcrit : ℕ → ℝ) (w : ℕ) (xs : List ℚ) (i : ℕ)
    (hi : i < xs.length) :
    (ciBands tcrit w xs)[i]? = some (ciPair tcrit w xs i) := by
  rw [ciBands, List.getElem?_map, List.getElem?_range hi, Option.map_some']

theorem sem_nonneg (xs : List ℚ) : 0 ≤ sem xs :=
  div_nonneg (Real.sqrt_nonneg _) (Real.sqrt_nonneg _)

theorem ciPair_of_ge (tcrit : ℕ → ℝ) (w : ℕ) (xs : List ℚ) (i : ℕ)
    (h2i : 2 ≤ i) (h2len : 2 ≤ (window w xs i).length) :
    ciPair tcrit w xs i =
      ((listMean (window w xs i) : ℝ)
         - tcrit ((window w xs i).length - 1) * sem (window w xs i),
       (listMean (window w xs i) : ℝ)
         + tcrit ((window w xs i).length - 1) * sem (window w xs i)) := by
  rw [ciPair, if_neg (by omega), if_pos h2len]
  rfl

/-! ## C2: the confidence-interval band (corrected) -/

/-- **C2 counterexample.** The claim asserts `lower ≤ point ≤ upper` at
every index whose trailing window holds at least 2 samples.  At index 1
of the series `[0, 1]` with window size 2 the trailing window holds 2
samples, yet the loop takes its `i < 2` branch and returns the
degenerate pair `(1, 1)`, while the running-mean point there is `1/2`,
and `1 ≤ 1/2` is false. -/
theorem c2_ci_band_counterexample :
    2 ≤ (window 2 [0, 1] 1).length ∧
    (ciBands (fun _ => 2) 2 [0, 1])[1]? = some (1, 1) ∧
    (rollingMean 2 [0, 1])[1]? = some (1 / 2) ∧
    ¬ ((1 : ℝ) ≤ (((1 : ℚ) / 2 : ℚ) : ℝ)) := by
  refine ⟨by decide, ?_, ?_, by norm_num⟩
  · rw [ciBands_getElem (fun _ => 2) 2 [0, 1] 1 (by norm_num)]
    norm_num [ciPair]
  · rw [rollingMean_getElem 2 [0, 1] 1 (by norm_num)]
    norm_num [window, listMean]

/-- **C2 amended.** For every series, window size and nonnegative
Student-t quantile: at every index `i ≥ 2` whose trailing window holds
at least 2 samples, the interval brackets the window mean — which is
exactly the running-mean value there (`lower ≤ point ≤ upper`); and at
every index with `i < 2`, or whose trailing window holds fewer than 2
samples, the interval degenerates to the zero-width pair anchored at
the raw sample `dg.iloc[i]` (not at the running mean). -/
theorem c2_ci_band_amended (tcrit : ℕ → ℝ) (w : ℕ) (xs : List ℚ) :
    ∀ i, i < xs.length →
      (2 ≤ i → 2 ≤ (window w xs i).length →
          0 ≤ tcrit ((window w xs i).length - 1) →
        (ciBands tcrit w xs)[i]? = some (ciPair tcrit w xs i) ∧
        (ciPair tcrit w xs i).1 ≤ (listMean (window w xs i) : ℝ) ∧
        (listMean (window w xs i) : ℝ) ≤ (ciPair tcrit w xs i).2 ∧
        (rollingMean w xs)[i]? = some (listMean (window w xs i))) ∧
      ((i < 2 ∨ (window w xs i).length < 2) →
        (ciBands tcrit w xs)[i]? = some ((xs.getD i 0 : ℝ), (xs.getD i 0 : ℝ))) := by
  intro i hi
  constructor
  · intro h2i h2len ht
    refine ⟨ciBands_getElem tcrit w xs i hi, ?_, ?_, rollingMean_getElem w xs i hi⟩
    · rw [ciPair_of_ge tcrit w xs i h2i h2len]
      exact sub_le_self _ (mul_nonneg ht (sem_nonneg _))
    · rw [ciPair_of_ge tcrit w xs i h2i h2len]
      exact le_add_of_nonneg_right (mul_nonneg ht (sem_nonneg _))
  · intro hdeg
    rw [ciBands_getElem tcrit w xs i hi]
    by_cases hi2 : i < 2
    · rw [ciPair, if_pos hi2]
    · rcases hdeg with h | h
      · exact absurd h hi2
      · rw [ciPair, if_neg hi2, if_neg (by omega)]

/-- Witness for the amended C2 at the series `[0, 1, 2, 3]`, window
size 10, index 2, quantile function constantly 2. -/
theorem c2_ci_band_amended_witness :
    (2 : ℕ) < ([0, 1, 2, 3] : List ℚ).length ∧ (2 : ℕ) ≤ 2 ∧
    2 ≤ (window 10 [0, 1, 2, 3] 2).length ∧ (0 : ℝ) ≤ 2 ∧
    ((ciBands (fun _ => 2) 10 [0, 1, 2, 3])[2]? =
        some (ciPair (fun _ => 2) 10 [0, 1, 2, 3] 2) ∧
      (ciPair (fun _ => 2) 10 [0, 1, 2, 3] 2).1 ≤
        (listMean (window 10 [0, 1, 2, 3] 2) : ℝ) ∧
      (listMean (window 10 [0, 1, 2, 3] 2) : ℝ) ≤
        (ciPair (fun _ => 2) 10 [0, 1, 2, 3] 2).2 ∧
      (rollingMean 10 [0, 1, 2, 3])[2]? =
        some (listMean (window 10 [0, 1, 2, 3] 2))) :=
  ⟨by decide, by decide, by decide, by norm_num,
   (c2_ci_band_amended (fun _ => 2) 10 [0, 1, 2, 3] 2 (by decide)).1
     (by decide) (by decide) (by norm_num)⟩

/-! ## C10: symmetry of the confidence interval about the running mean -/

/-- **C10.** In confidence-interval mode, at every index `i ≥ 2` whose
trailing window holds at least 2 samples, the interval is computed over
exactly the same trailing window as the running mean, and its midpoint
`(lower + upper) / 2` equals that window's mean, which is the
running-mean value at `i`. -/
theorem c10_ci_band_symmetric (tcrit : ℕ → ℝ) (w : ℕ) (xs : List ℚ) :
    ∀ i, i < xs.length → 2 ≤ i → 2 ≤ (window w xs i).length →
      ((ciPair tcrit w xs i).1 + (ciPair tcrit w xs i).2) / 2
        = (listMean (window w xs i) : ℝ) ∧
      (ciBands tcrit w xs)[i]? = some (ciPair tcrit w xs i) ∧
      (rollingMean w xs)[i]? = some (listMean (window w xs i)) := by
  intro i hi h2i h2len
  refine ⟨?_, ciBands_getElem tcrit w xs i hi, rollingMean_getElem w xs i hi⟩
  rw [ciPair_of_ge tcrit w xs i h2i h2len]
  ring

/-- Witness for C10 at the series `[0, 1, 2, 3]`, window size 3,
index 3, quantile function constantly 2. -/
theorem c10_ci_band_symmetric_witness :
    (3 : ℕ) < ([0, 1, 2, 3] : List ℚ).length ∧ (2 : ℕ) ≤ 3 ∧
    2 ≤ (window 3 [0, 1, 2, 3] 3).length ∧
    (((ciPair (fun _ => 2) 3 [0, 1, 2, 3] 3).1 +
        (ciPair (fun _ => 2) 3 [0, 1, 2, 3] 3).2) / 2
        = (listMean (window 3 [0, 1, 2, 3] 3) : ℝ) ∧
      (ciBands (fun _ => 2) 3 [0, 1, 2, 3])[3]? =
        some (ciPair (fun _ => 2) 3 [0, 1, 2, 3] 3) ∧
      (rollingMean 3 [0, 1, 2, 3])[3]? =
        some (listMean (window 3 [0, 1, 2, 3] 3))) :=
  ⟨by decide, by decide, by decide,
   c10_ci_band_symmetric (fun _ => 2) 3 [0, 1, 2, 3] 3 (by decide) (by decide)
     (by decide)⟩

/-! ## C6: truncation to the maximum series count -/

/-- A well-formed two-row table whose only column is the required
energy column; used in the concrete scenarios. -/
def goodTable : Table := ⟨[reqCol], [1, 2], 2⟩

/-- A non-empty table lacking the required energy column (it only has
the `title` label column). -/
def noColTable : Table := ⟨["title"], [], 2⟩

/-- **C6.** In comparison mode, when more files are uploaded than the
configured maximum, exactly the first maximum-many files (in upload
order) are kept, the warning fires, and processing is not aborted; in
particular 5 valid uploaded files with maximum 4 yield exactly 4
processed series and the truncation warning. -/
theorem c6_comparison_truncation (m : ℕ) (files : List (Option Table))
    (h : files.length > m) :
    (truncateUploads m files).1 = files.take m ∧
    (truncateUploads m files).1.length = m ∧
    (truncateUploads m files).2 = true ∧
    (truncateUploads 4 (List.replicate 5 (some goodTable))).2 = true ∧
    (allStats (truncateUploads 4 (List.replicate 5 (some goodTable))).1).length = 4 := by
  refine ⟨?_, ?_, ?_, ?_, ?_⟩
  · rw [truncateUploads, if_pos h]
  · rw [truncateUploads, if_pos h]
    simp only [List.length_take]
    omega
  · rw [truncateUploads, if_pos h]
  · rw [truncateUploads, if_pos (by simp)]
  · rw [truncateUploads, if_pos (by simp)]
    show (allStats (List.take 4 (List.replicate 5 (some goodTable)))).length = 4
    have htake : List.take 4 (List.replicate 5 (some goodTable))
        = List.replicate 4 (some goodTable) := by
      simp [List.take_replicate]
    rw [htake]
    have hpe : processEntry (some goodTable) = .plotted (compute_stats goodTable.dg) := by
      simp [processEntry, goodTable, reqCol]
    simp [allStats, hpe, List.filterMap_replicate]

/-- Witness for C6 with 5 uploaded files and maximum 4. -/
theorem c6_comparison_truncation_witness :
    (List.replicate 5 (some goodTable)).length > 4 ∧
    (truncateUploads 4 (List.replicate 5 (some goodTable))).1.length = 4 ∧
    (truncateUploads 4 (List.replicate 5 (some goodTable))).2 = true ∧
    (allStats (truncateUploads 4 (List.replicate 5 (some goodTable))).1).length = 4 :=
  ⟨by decide,
   (c6_comparison_truncation 4 (List.replicate 5 (some goodTable)) (by decide)).2.1,
   (c6_comparison_truncation 4 (List.replicate 5 (some goodTable)) (by decide)).2.2.1,
   (c6_comparison_truncation 4 (List.replicate 5 (some goodTable)) (by decide)).2.2.2.2⟩

/-! ## C7: files missing the required column are excluded -/

/-- **C7.** Every uploaded file whose (non-empty) table lacks the
required energy column is reported as a missing-column error, and it
contributes no statistics: removing it from the upload list leaves
`all_stats` unchanged, so the remaining valid files are processed
exactly as before; a single such file yields zero computed statistics. -/
theorem c7_missing_column_excluded (t : Table) (pre post : List (Option Table))
    (hrows : t.rows ≠ 0) (hcol : ¬ t.columns.contains reqCol) :
    processEntry (some t) = .errMissingColumn ∧
    allStats (pre ++ some t :: post) = allStats (pre ++ post) ∧
    allStats [some t] = [] := by
  have hpe : processEntry (some t) = .errMissingColumn := by
    simp only [processEntry]
    rw [if_neg hrows, if_neg hcol]
  refine ⟨hpe, ?_, ?_⟩
  · simp [allStats, List.filterMap_append, List.filterMap_cons, hpe]
  · simp [allStats, hpe]

/-- Witness for C7: a non-empty table with only a `title` column,
followed by one valid file. -/
theorem c7_missing_column_excluded_witness :
    noColTable.rows ≠ 0 ∧ ¬ noColTable.columns.contains reqCol ∧
    (processEntry (some noColTable) = .errMissingColumn ∧
     allStats ([] ++ some noColTable :: [some goodTable]) = allStats ([] ++ [some goodTable]) ∧
     allStats [some noColTable] = []) :=
  ⟨by decide, by decide,
   c7_missing_column_excluded noColTable [] [some goodTable] (by decide) (by decide)⟩

/-! ## C8: determinism of the statistics -/

/-- **C8.** All statistics are pure functions of the input series, the
window size and the chosen error method (plus the fixed Student-t
quantile table): recomputation on the same inputs yields identical
outputs — in this functional embedding of the pipeline each statistic
is a function of exactly those inputs and nothing else, so the two
computations coincide definitionally. -/
theorem c8_statistics_deterministic (xs : List ℚ) (w : ℕ) (tcrit : ℕ → ℝ) (D : ℚ) :
    compute_stats xs = compute_stats xs ∧
    rollingMean w xs = rollingMean w xs ∧
    stdErrBand w xs = stdErrBand w xs ∧
    ciBands tcrit w xs = ciBands tcrit w xs ∧
    timeAxis D xs = timeAxis D xs :=
  ⟨rfl, rfl, rfl, rfl, rfl⟩

end MMGBSA
